import Mathlib

/-!
Formal model of the SATA TRIM (DATA SET MANAGEMENT) erase pipeline found in
`src/libkernelflinger/sata.c`:

  * the range-list builder of `ata_dsm_trim` (lines 141-160), which turns an
    inclusive LBA span `[start, end]` into packed 8-byte LBA range entries;
  * the batch dispatcher of `ata_dsm_trim` (lines 162-183), which issues the
    range-list buffer in chunks of at most `max_dsm_block_nb` 512-byte blocks;
  * the capability probe `is_dsm_trim_supported` (lines 94-113);
  * the driver facade `sata_erase_blocks` (lines 185-228) and
    `sata_check_logical_unit` (lines 230-234).

All machine integers are modelled as `Nat` with explicit `% 2^64` where the
C code's `UINT64` arithmetic can wrap.  The two C loops are embedded twice:
once exactly, as fuel-indexed step functions (`dsmBuildLoop`, `dispatchLoop`)
whose `none` result means the loop has not terminated within `fuel`
iterations, and once as terminating recursive functions (`dsmRanges`,
`chunkSeq`) that agree with the exact embedding whenever the u64 arithmetic
does not wrap.  The byte-level effect of the descriptor stores
(`*((UINT64 *)&range[i]) = start; range[i].len = ...`) is modelled on a
little-endian byte memory `Nat → Nat`.
-/

namespace SataSpec

/-- Modulus of `UINT64` / `EFI_LBA` arithmetic, `2 ^ 64` written as a numeral. -/
def U64 : Nat := 18446744073709551616

/-- Constant `#define BLOCK_SIZE 0x200` (storage block size in bytes). -/
def BLOCK_SIZE : Nat := 0x200

/-- Constant `#define MAX_SECTOR_PER_RANGE 0xFFFF` (max run length of one entry). -/
def MAX_SECTOR_PER_RANGE : Nat := 0xFFFF

/-- Constant `#define TRIM_SUPPORTED_BIT 0x01` of `is_data_set_cmd_supported`. -/
def TRIM_SUPPORTED_BIT : Nat := 0x01

/-- Status code `EFI_SUCCESS = 0`. -/
def EFI_SUCCESS : Nat := 0

/-- High bit of a 64-bit `EFI_STATUS`; set exactly on error codes. -/
def EFI_ERR_BIT : Nat := 9223372036854775808

/-- Status code `EFI_INVALID_PARAMETER` (error bit | 2). -/
def EFI_INVALID_PARAMETER : Nat := EFI_ERR_BIT + 2

/-- Status code `EFI_UNSUPPORTED` (error bit | 3). -/
def EFI_UNSUPPORTED : Nat := EFI_ERR_BIT + 3

/-- Status code `EFI_DEVICE_ERROR` (error bit | 7). -/
def EFI_DEVICE_ERROR : Nat := EFI_ERR_BIT + 7

/-- Status code `EFI_NOT_FOUND` (error bit | 14). -/
def EFI_NOT_FOUND : Nat := EFI_ERR_BIT + 14

/-- Macro `EFI_ERROR(s)`: a status is an error iff its high bit is set. -/
def EFI_ERROR (s : Nat) : Bool := decide (EFI_ERR_BIT ≤ s)

/-- One LBA range entry of the DSM TRIM payload (`lba_range_entry_t`,
lines 48-51): a 48-bit start LBA plus a 16-bit run length, 8 bytes packed.
The abstract entry keeps the full builder-loop values; the 48-bit wire
truncation is modelled by the byte-level store `writeEntry` below. -/
structure RangeEntry where
  lba : Nat
  len : Nat
deriving DecidableEq, Repr

/-- Line 141, `nr_sectors = end - start + 1` in wrapping `UINT64` arithmetic
(for `start, e < 2^64` the C subtraction `e - start` equals
`(e + 2^64 - start) % 2^64`). -/
def nrSectors (start e : Nat) : Nat := ((e + U64 - start) % U64 + 1) % U64

/-- Lines 142-144: `nr_ranges = nr_sectors / MAX_SECTOR_PER_RANGE`, plus one
when the division has a remainder. -/
def nrRanges (start e : Nat) : Nat :=
  nrSectors start e / MAX_SECTOR_PER_RANGE +
    (if nrSectors start e % MAX_SECTOR_PER_RANGE ≠ 0 then 1 else 0)

/-- Lines 145-147: `nr_blocks = (nr_ranges * sizeof(*range)) / BLOCK_SIZE`,
plus one when `(nr_ranges * sizeof(UINT64)) % BLOCK_SIZE` is nonzero; both
`sizeof` values are 8 bytes. -/
def nrBlocks (start e : Nat) : Nat :=
  nrRanges start e * 8 / BLOCK_SIZE +
    (if nrRanges start e * 8 % BLOCK_SIZE ≠ 0 then 1 else 0)

/-- Exact embedding of the descriptor-building loop of lines 156-160:
`for (i = 0; start <= end; start += MAX_SECTOR_PER_RANGE, i++)` with the
entry `{ lba := start, len := left < MAX ? left : MAX }` where
`left = end - start + 1`, all in wrapping `UINT64` arithmetic.  The result is
`none` when the loop does not finish within `fuel` iterations (the C loop
need not terminate: near `2^64` the stride `start += 0xFFFF` wraps). -/
def dsmBuildLoop : Nat → Nat → Nat → Option (List RangeEntry)
  | 0, _, _ => none
  | fuel + 1, start, e =>
    if start ≤ e then
      match dsmBuildLoop fuel ((start + MAX_SECTOR_PER_RANGE) % U64) e with
      | none => none
      | some rest =>
        some ({ lba := start,
                len := if (e - start + 1) % U64 < MAX_SECTOR_PER_RANGE
                       then (e - start + 1) % U64
                       else MAX_SECTOR_PER_RANGE } :: rest)
    else some []

/-- Terminating companion of `dsmBuildLoop`, in plain `Nat` arithmetic (no
wrap).  `dsmBuildLoop_complete` below proves it computes exactly what the C
loop computes whenever `e + MAX_SECTOR_PER_RANGE < 2^64`. -/
def dsmRanges (start e : Nat) : List RangeEntry :=
  if _h : start ≤ e then
    { lba := start,
      len := if e - start + 1 < MAX_SECTOR_PER_RANGE then e - start + 1
             else MAX_SECTOR_PER_RANGE } ::
      dsmRanges (start + MAX_SECTOR_PER_RANGE) e
  else []
termination_by e + 1 - start
decreasing_by simp only [MAX_SECTOR_PER_RANGE]; omega

/-- Sum of the run lengths of a descriptor list. -/
def sumLens (rs : List RangeEntry) : Nat := (rs.map RangeEntry.len).sum

/-- Descriptors cover a contiguous region starting at `s`: each entry starts
where announced and the next entry starts right after this entry's run. -/
def contiguousFrom : Nat → List RangeEntry → Prop
  | _, [] => True
  | s, r :: rest => r.lba = s ∧ contiguousFrom (s + r.len) rest

/-- Little-endian byte-memory store of a `UINT64` value at byte offset `off`
(the C store `*((UINT64 *)&range[i]) = start`). -/
def store64 (m : Nat → Nat) (off v : Nat) : Nat → Nat :=
  fun a => if off ≤ a ∧ a < off + 8 then v / 2 ^ (8 * (a - off)) % 256 else m a

/-- Little-endian byte-memory store of a `UINT16` value at byte offset `off`
(the C store `range[i].len = ...`, the `len` field living at bytes 6-7 of the
packed 8-byte entry). -/
def store16 (m : Nat → Nat) (off v : Nat) : Nat → Nat :=
  fun a => if off ≤ a ∧ a < off + 2 then v / 2 ^ (8 * (a - off)) % 256 else m a

/-- Byte-level effect of one iteration of the building loop (lines 157-159):
first the 64-bit store of `start` over the whole 8-byte entry `i`, then the
16-bit store of the run length over its last two bytes. -/
def writeEntry (m : Nat → Nat) (i s len : Nat) : Nat → Nat :=
  store16 (store64 m (8 * i) (s % U64)) (8 * i + 6) (len % 65536)

/-- Byte-level embedding of the whole building loop of lines 156-160, acting
on a little-endian byte memory `m` holding the range-list buffer; `i` is the
entry index.  Plain `Nat` arithmetic; exact on the same no-wrap domain as
`dsmRanges`. -/
def dsmBuildMem (m : Nat → Nat) (i start e : Nat) : Nat → Nat :=
  if _h : start ≤ e then
    dsmBuildMem
      (writeEntry m i start
        (if e - start + 1 < MAX_SECTOR_PER_RANGE then e - start + 1
         else MAX_SECTOR_PER_RANGE))
      (i + 1) (start + MAX_SECTOR_PER_RANGE) e
  else m
termination_by e + 1 - start
decreasing_by simp only [MAX_SECTOR_PER_RANGE]; omega

/-- Canonical wire bytes of one descriptor: bytes 0-5 are the little-endian
bytes of the start LBA truncated to 48 bits, bytes 6-7 the little-endian
bytes of the 16-bit run length. -/
def entryByte (r : RangeEntry) (b : Nat) : Nat :=
  if b < 6 then r.lba % 2 ^ 48 / 2 ^ (8 * b) % 256
  else r.len % 65536 / 2 ^ (8 * (b - 6)) % 256

/-- Canonical wire bytes of a packed descriptor list at byte offset `a`. -/
def descByte (rs : List RangeEntry) (a : Nat) : Nat :=
  entryByte (rs.getD (a / 8) { lba := 0, len := 0 }) (a % 8)

/-- Exact embedding of the dispatch loop of lines 162-178:
`for (i = 0; i < nr_blocks; i += max_dsm_block_nb)` issuing a pass-through
command per chunk; `pt off cnt` is the `EFI_STATUS` the transport returns for
the command covering `cnt` blocks starting at block offset `off`.  Returns
the list of issued chunks together with the final value of `ret` (`ret`
enters the loop as the successful allocation status), or `none` when the loop
does not finish within `fuel` iterations. -/
def dispatchLoop (pt : Nat → Nat → Nat) (M T : Nat) :
    Nat → Nat → Nat → Option (List (Nat × Nat) × Nat)
  | 0, _, _ => none
  | fuel + 1, i, ret =>
    if i < T then
      if EFI_ERROR (pt i (min (T - i) M)) = true then
        some ([(i, min (T - i) M)], pt i (min (T - i) M))
      else
        match dispatchLoop pt M T fuel ((i + M) % U64) (pt i (min (T - i) M)) with
        | none => none
        | some (rest, fin) => some ((i, min (T - i) M) :: rest, fin)
    else some ([], ret)

/-- Terminating companion of `dispatchLoop`: the chunk subdivision
`(offset, min(T - offset, M))` the loop walks, starting at block offset `i`. -/
def chunkSeq (M T i : Nat) : List (Nat × Nat) :=
  if _h : i < T ∧ 0 < M then (i, min (T - i) M) :: chunkSeq M T (i + M) else []
termination_by T - i
decreasing_by omega

/-- Chunks are consecutive and non-overlapping in buffer order starting at
block offset `i`: each chunk starts where announced and the next starts right
after it. -/
def chunksFrom : Nat → List (Nat × Nat) → Prop
  | _, [] => True
  | i, c :: rest => c.1 = i ∧ chunksFrom (i + c.2) rest

/-- Relevant fields of `ATA_IDENTIFY_DATA` read by `is_dsm_trim_supported`. -/
structure AtaIdentifyData where
  is_data_set_cmd_supported : Nat
  max_no_of_512byte_blocks_per_data_set_cmd : Nat

/-- Environment of one `sata_erase_blocks` call: the outcome of each external
collaborator the function consults, fixed for the duration of the call. -/
structure SataEnv where
  devicePathOk : Bool
  locateStatus : Nat
  sataDpFound : Bool
  handleProtocolStatus : Nat
  identifyStatus : Nat
  identifyData : AtaIdentifyData
  allocStatus : Nat
  passThru : Nat → Nat → Nat

/-- Capability probe `is_dsm_trim_supported` (lines 94-113): `false` when the
identify command fails, when bit 0 (`TRIM_SUPPORTED_BIT`) of
`is_data_set_cmd_supported` is clear (`x & 0x01` is `x % 2`), or when
`max_no_of_512byte_blocks_per_data_set_cmd` is zero. -/
def is_dsm_trim_supported (env : SataEnv) : Bool :=
  if EFI_ERROR env.identifyStatus = true then false
  else if env.identifyData.is_data_set_cmd_supported % 2 = 0
          ∨ env.identifyData.max_no_of_512byte_blocks_per_data_set_cmd = 0 then false
  else true

/-- Observable outcome of one `ata_dsm_trim` call: returned status, DSM
chunks issued through the transport, and number of `FreePool(buf)` calls. -/
structure TrimOutcome where
  status : Nat
  issued : List (Nat × Nat)
  frees : Nat
deriving DecidableEq, Repr

/-- Function `ata_dsm_trim` (lines 119-183): size the range list, allocate
(returning the allocation error without freeing on failure), run the build
loop, then the dispatch loop, and free the buffer exactly once on the way
out. `none` models a call that never returns within `fuel` loop steps. -/
def ata_dsm_trim (env : SataEnv) (start e M fuel : Nat) : Option TrimOutcome :=
  if EFI_ERROR env.allocStatus = true then
    some { status := env.allocStatus, issued := [], frees := 0 }
  else
    match dsmBuildLoop fuel start e with
    | none => none
    | some _ =>
      match dispatchLoop env.passThru M (nrBlocks start e) fuel 0 EFI_SUCCESS with
      | none => none
      | some (issued, st) => some { status := st, issued := issued, frees := 1 }

/-- Observable outcome of one `sata_erase_blocks` call. -/
structure EraseOutcome where
  status : Nat
  issued : List (Nat × Nat)
deriving DecidableEq, Repr

/-- Facade `sata_erase_blocks` (lines 185-228): resolve the device path,
locate the ATA root device, extract the SATA node, obtain the pass-through
protocol, then probe; on a positive probe run `ata_dsm_trim` with the probed
`max_no_of_512byte_blocks_per_data_set_cmd`, otherwise return
`EFI_UNSUPPORTED` without issuing any DSM command. -/
def sata_erase_blocks (env : SataEnv) (start e fuel : Nat) : Option EraseOutcome :=
  if env.devicePathOk = false then
    some { status := EFI_INVALID_PARAMETER, issued := [] }
  else if EFI_ERROR env.locateStatus = true then
    some { status := env.locateStatus, issued := [] }
  else if env.sataDpFound = false then
    some { status := EFI_NOT_FOUND, issued := [] }
  else if EFI_ERROR env.handleProtocolStatus = true then
    some { status := env.handleProtocolStatus, issued := [] }
  else if is_dsm_trim_supported env = true then
    Option.map (fun t => { status := t.status, issued := t.issued })
      (ata_dsm_trim env start e
        env.identifyData.max_no_of_512byte_blocks_per_data_set_cmd fuel)
  else
    some { status := EFI_UNSUPPORTED, issued := [] }

/-- Modelled from the spec: the `logical_unit_t` enumeration lives in
`storage.h`, which is not under `src/`; the spec describes the logical units
as "user-data vs. auxiliary" sub-targets, served only for the primary
user-data unit. -/
inductive logical_unit_t where
  | user
  | factory
deriving DecidableEq, Repr

/-- Constant `LOGICAL_UNIT_USER`, the primary/user-data logical unit. -/
def LOGICAL_UNIT_USER : logical_unit_t := logical_unit_t.user

/-- Function `sata_check_logical_unit` (lines 230-234); its device-path
argument is explicitly unused in the C source and is modelled as an opaque
`Nat`. -/
def sata_check_logical_unit (_p : Nat) (log_unit : logical_unit_t) : Nat :=
  if log_unit = LOGICAL_UNIT_USER then EFI_SUCCESS else EFI_UNSUPPORTED

/-- The exact u64 building loop terminates on span `[start, e]` and produces
the descriptor list `rs`. -/
def BuildsTo (start e : Nat) (rs : List RangeEntry) : Prop :=
  ∃ fuel, dsmBuildLoop fuel start e = some rs

/-- Per-span property claimed by C1, over the exact u64 building loop: the
built descriptor sequence exists (the loop terminates), its run lengths sum
to `end - start + 1`, it is contiguous from `start` (so start LBAs are
strictly ascending with no gaps and no overlaps), and every run length lies
in `[1, 65535]`. -/
def C1Prop (start e : Nat) : Prop :=
  ∃ rs, BuildsTo start e rs ∧ sumLens rs = e - start + 1 ∧
    contiguousFrom start rs ∧ ∀ r ∈ rs, 1 ≤ r.len ∧ r.len ≤ MAX_SECTOR_PER_RANGE

/-- Per-span property claimed by C2, over the exact u64 building loop: the
number of descriptors emitted is `ceil((end - start + 1) / 65535)`, the
backing buffer (`nr_blocks` storage blocks of `BLOCK_SIZE` bytes) is the
smallest block-size multiple holding all 8-byte descriptors, and the three
boundary spans produce exactly the claimed descriptor lists. -/
def C2Prop (start e : Nat) : Prop :=
  ∃ rs, BuildsTo start e rs ∧
    rs.length = (e - start + 1 + (MAX_SECTOR_PER_RANGE - 1)) / MAX_SECTOR_PER_RANGE ∧
    8 * rs.length ≤ nrBlocks start e * BLOCK_SIZE ∧
    (∀ b : Nat, 8 * rs.length ≤ b * BLOCK_SIZE → nrBlocks start e ≤ b) ∧
    (e = start → rs = [{ lba := start, len := 1 }]) ∧
    (e - start + 1 = MAX_SECTOR_PER_RANGE →
      rs = [{ lba := start, len := MAX_SECTOR_PER_RANGE }]) ∧
    (e - start + 1 = MAX_SECTOR_PER_RANGE + 1 →
      rs = [{ lba := start, len := MAX_SECTOR_PER_RANGE },
            { lba := start + MAX_SECTOR_PER_RANGE, len := 1 }])

/-- Concrete call environment whose device resolves and whose probe is
negative (TRIM capability bit clear in the identify data). -/
def negProbeEnv : SataEnv :=
  { devicePathOk := true, locateStatus := EFI_SUCCESS, sataDpFound := true,
    handleProtocolStatus := EFI_SUCCESS, identifyStatus := EFI_SUCCESS,
    identifyData := { is_data_set_cmd_supported := 0,
                      max_no_of_512byte_blocks_per_data_set_cmd := 9 },
    allocStatus := EFI_SUCCESS, passThru := fun _ _ => EFI_SUCCESS }

/-- Concrete call environment whose device resolves, whose probe is positive
(TRIM bit set, `max_no_of_512byte_blocks_per_data_set_cmd = 1`), whose
allocation succeeds and whose transport always succeeds. -/
def okEnv : SataEnv :=
  { devicePathOk := true, locateStatus := EFI_SUCCESS, sataDpFound := true,
    handleProtocolStatus := EFI_SUCCESS, identifyStatus := EFI_SUCCESS,
    identifyData := { is_data_set_cmd_supported := 1,
                      max_no_of_512byte_blocks_per_data_set_cmd := 1 },
    allocStatus := EFI_SUCCESS, passThru := fun _ _ => EFI_SUCCESS }

/-! ### Basic facts about the range-list builder -/

theorem sumLens_nil : sumLens [] = 0 := rfl

theorem sumLens_cons (r : RangeEntry) (rs : List RangeEntry) :
    sumLens (r :: rs) = r.len + sumLens rs := by
  simp [sumLens]

theorem contiguousFrom_nil (s : Nat) : contiguousFrom s [] := trivial

theorem contiguousFrom_cons (s : Nat) (r : RangeEntry) (rs : List RangeEntry) :
    contiguousFrom s (r :: rs) ↔ (r.lba = s ∧ contiguousFrom (s + r.len) rs) :=
  Iff.rfl

theorem dsmRanges_neg (start e : Nat) (h : ¬ start ≤ e) : dsmRanges start e = [] := by
  rw [dsmRanges, dif_neg h]

theorem dsmRanges_pos (start e : Nat) (h : start ≤ e) :
    dsmRanges start e =
      { lba := start,
        len := if e - start + 1 < MAX_SECTOR_PER_RANGE then e - start + 1
               else MAX_SECTOR_PER_RANGE } ::
        dsmRanges (start + MAX_SECTOR_PER_RANGE) e := by
  rw [dsmRanges, dif_pos h]

theorem dsmRanges_pos_min (start e : Nat) (h : start ≤ e) :
    dsmRanges start e =
      { lba := start, len := min (e - start + 1) MAX_SECTOR_PER_RANGE } ::
        dsmRanges (start + MAX_SECTOR_PER_RANGE) e := by
  rw [dsmRanges_pos start e h]
  have hm : (if e - start + 1 < MAX_SECTOR_PER_RANGE then e - start + 1
             else MAX_SECTOR_PER_RANGE) = min (e - start + 1) MAX_SECTOR_PER_RANGE := by
    simp only [MAX_SECTOR_PER_RANGE]
    split <;> omega
  rw [hm]

theorem dsmRanges_sumLens_aux :
    ∀ kk start e, e + 1 - start ≤ MAX_SECTOR_PER_RANGE * kk → start ≤ e →
      sumLens (dsmRanges start e) = e - start + 1 := by
  intro kk
  induction kk with
  | zero =>
    intro s e hk hse
    simp only [MAX_SECTOR_PER_RANGE] at hk
    omega
  | succ n ih =>
    intro s e hk hse
    rw [dsmRanges_pos_min s e hse, sumLens_cons]
    by_cases hrest : s + MAX_SECTOR_PER_RANGE ≤ e
    · rw [ih (s + MAX_SECTOR_PER_RANGE) e
        (by simp only [MAX_SECTOR_PER_RANGE] at hk ⊢; omega) hrest]
      simp only [MAX_SECTOR_PER_RANGE] at hrest ⊢
      omega
    · rw [dsmRanges_neg _ _ hrest, sumLens_nil]
      simp only [MAX_SECTOR_PER_RANGE] at hrest ⊢
      omega

theorem dsmRanges_contig_aux :
    ∀ kk start e, e + 1 - start ≤ MAX_SECTOR_PER_RANGE * kk →
      contiguousFrom start (dsmRanges start e) := by
  intro kk
  induction kk with
  | zero =>
    intro s e hk
    rw [dsmRanges_neg s e (by simp only [MAX_SECTOR_PER_RANGE] at hk; omega)]
    exact contiguousFrom_nil s
  | succ n ih =>
    intro s e hk
    by_cases hse : s ≤ e
    · rw [dsmRanges_pos_min s e hse, contiguousFrom_cons]
      refine ⟨rfl, ?_⟩
      show contiguousFrom (s + min (e - s + 1) MAX_SECTOR_PER_RANGE)
        (dsmRanges (s + MAX_SECTOR_PER_RANGE) e)
      by_cases hrest : s + MAX_SECTOR_PER_RANGE ≤ e
      · have hm : min (e - s + 1) MAX_SECTOR_PER_RANGE = MAX_SECTOR_PER_RANGE := by
          simp only [MAX_SECTOR_PER_RANGE] at hrest ⊢
          omega
        rw [hm]
        exact ih (s + MAX_SECTOR_PER_RANGE) e
          (by simp only [MAX_SECTOR_PER_RANGE] at hk ⊢; omega)
      · rw [dsmRanges_neg _ _ hrest]
        exact contiguousFrom_nil _
    · rw [dsmRanges_neg s e hse]
      exact contiguousFrom_nil s

theorem dsmRanges_bounds_aux :
    ∀ kk start e, e + 1 - start ≤ MAX_SECTOR_PER_RANGE * kk →
      ∀ r ∈ dsmRanges start e, 1 ≤ r.len ∧ r.len ≤ MAX_SECTOR_PER_RANGE := by
  intro kk
  induction kk with
  | zero =>
    intro s e hk r hr
    rw [dsmRanges_neg s e (by simp only [MAX_SECTOR_PER_RANGE] at hk; omega)] at hr
    exact absurd hr (List.not_mem_nil r)
  | succ n ih =>
    intro s e hk r hr
    by_cases hse : s ≤ e
    · rw [dsmRanges_pos_min s e hse] at hr
      rcases List.mem_cons.mp hr with hhead | htail
      · subst hhead
        refine ⟨?_, ?_⟩
        · show 1 ≤ min (e - s + 1) MAX_SECTOR_PER_RANGE
          simp only [MAX_SECTOR_PER_RANGE]
          omega
        · show min (e - s + 1) MAX_SECTOR_PER_RANGE ≤ MAX_SECTOR_PER_RANGE
          exact Nat.min_le_right _ _
      · exact ih (s + MAX_SECTOR_PER_RANGE) e
          (by simp only [MAX_SECTOR_PER_RANGE] at hk ⊢; omega) r htail
    · rw [dsmRanges_neg s e hse] at hr
      exact absurd hr (List.not_mem_nil r)

theorem dsmRanges_length_aux :
    ∀ kk start e, e + 1 - start ≤ MAX_SECTOR_PER_RANGE * kk →
      (dsmRanges start e).length =
        (e + 1 - start + (MAX_SECTOR_PER_RANGE - 1)) / MAX_SECTOR_PER_RANGE := by
  intro kk
  induction kk with
  | zero =>
    intro s e hk
    rw [dsmRanges_neg s e (by simp only [MAX_SECTOR_PER_RANGE] at hk; omega),
      List.length_nil]
    simp only [MAX_SECTOR_PER_RANGE] at hk ⊢
    omega
  | succ n ih =>
    intro s e hk
    by_cases hse : s ≤ e
    · rw [dsmRanges_pos_min s e hse, List.length_cons,
        ih (s + MAX_SECTOR_PER_RANGE) e
          (by simp only [MAX_SECTOR_PER_RANGE] at hk ⊢; omega)]
      simp only [MAX_SECTOR_PER_RANGE] at hse ⊢
      omega
    · rw [dsmRanges_neg s e hse, List.length_nil]
      simp only [MAX_SECTOR_PER_RANGE] at hse ⊢
      omega

theorem dsmRanges_sumLens (start e : Nat) (h : start ≤ e) :
    sumLens (dsmRanges start e) = e - start + 1 :=
  dsmRanges_sumLens_aux (e + 1 - start) start e
    (by simp only [MAX_SECTOR_PER_RANGE]; omega) h

theorem dsmRanges_contig (start e : Nat) :
    contiguousFrom start (dsmRanges start e) :=
  dsmRanges_contig_aux (e + 1 - start) start e
    (by simp only [MAX_SECTOR_PER_RANGE]; omega)

theorem dsmRanges_bounds (start e : Nat) :
    ∀ r ∈ dsmRanges start e, 1 ≤ r.len ∧ r.len ≤ MAX_SECTOR_PER_RANGE :=
  dsmRanges_bounds_aux (e + 1 - start) start e
    (by simp only [MAX_SECTOR_PER_RANGE]; omega)

theorem dsmRanges_length (start e : Nat) :
    (dsmRanges start e).length =
      (e + 1 - start + (MAX_SECTOR_PER_RANGE - 1)) / MAX_SECTOR_PER_RANGE :=
  dsmRanges_length_aux (e + 1 - start) start e
    (by simp only [MAX_SECTOR_PER_RANGE]; omega)

theorem dsmRanges_single (start e : Nat) (h1 : start ≤ e)
    (h2 : e < start + MAX_SECTOR_PER_RANGE) :
    dsmRanges start e = [{ lba := start, len := e - start + 1 }] := by
  rw [dsmRanges_pos_min start e h1,
    dsmRanges_neg (start + MAX_SECTOR_PER_RANGE) e (by omega)]
  have hm : min (e - start + 1) MAX_SECTOR_PER_RANGE = e - start + 1 := by
    simp only [MAX_SECTOR_PER_RANGE] at h2 ⊢
    omega
  rw [hm]

theorem dsmRanges_two (start : Nat) :
    dsmRanges start (start + MAX_SECTOR_PER_RANGE) =
      [{ lba := start, len := MAX_SECTOR_PER_RANGE },
       { lba := start + MAX_SECTOR_PER_RANGE, len := 1 }] := by
  rw [dsmRanges_pos_min start (start + MAX_SECTOR_PER_RANGE) (by omega)]
  have hm : min (start + MAX_SECTOR_PER_RANGE - start + 1) MAX_SECTOR_PER_RANGE =
      MAX_SECTOR_PER_RANGE := by
    simp only [MAX_SECTOR_PER_RANGE]
    omega
  rw [hm, dsmRanges_single (start + MAX_SECTOR_PER_RANGE) (start + MAX_SECTOR_PER_RANGE)
    (le_refl _) (by simp only [MAX_SECTOR_PER_RANGE]; omega)]
  have h1 : start + MAX_SECTOR_PER_RANGE - (start + MAX_SECTOR_PER_RANGE) + 1 = 1 := by
    omega
  rw [h1]

/-! ### Agreement of the exact u64 building loop with `dsmRanges`, and its
divergence at the top of the address space -/

theorem dsmBuildLoop_zero (start e : Nat) : dsmBuildLoop 0 start e = none := rfl

theorem dsmBuildLoop_succ (fuel start e : Nat) :
    dsmBuildLoop (fuel + 1) start e =
      if start ≤ e then
        match dsmBuildLoop fuel ((start + MAX_SECTOR_PER_RANGE) % U64) e with
        | none => none
        | some rest =>
          some ({ lba := start,
                  len := if (e - start + 1) % U64 < MAX_SECTOR_PER_RANGE
                         then (e - start + 1) % U64
                         else MAX_SECTOR_PER_RANGE } :: rest)
      else some [] := rfl

theorem dsmBuildLoop_complete :
    ∀ kk start e, e + MAX_SECTOR_PER_RANGE < U64 →
      e + 1 - start ≤ MAX_SECTOR_PER_RANGE * kk →
      dsmBuildLoop (kk + 1) start e = some (dsmRanges start e) := by
  intro kk
  induction kk with
  | zero =>
    intro s e hU hk
    have hse : ¬ s ≤ e := by simp only [MAX_SECTOR_PER_RANGE] at hk; omega
    rw [dsmBuildLoop_succ, if_neg hse, dsmRanges_neg s e hse]
  | succ n ih =>
    intro s e hU hk
    by_cases hse : s ≤ e
    · have h1 : (s + MAX_SECTOR_PER_RANGE) % U64 = s + MAX_SECTOR_PER_RANGE := by
        apply Nat.mod_eq_of_lt
        simp only [MAX_SECTOR_PER_RANGE, U64] at hU hse ⊢
        omega
      have h2 : (e - s + 1) % U64 = e - s + 1 := by
        apply Nat.mod_eq_of_lt
        simp only [MAX_SECTOR_PER_RANGE, U64] at hU ⊢
        omega
      rw [dsmBuildLoop_succ, if_pos hse, h1, h2,
        ih (s + MAX_SECTOR_PER_RANGE) e hU
          (by simp only [MAX_SECTOR_PER_RANGE] at hk ⊢; omega),
        dsmRanges_pos s e hse]
    · rw [dsmBuildLoop_succ, if_neg hse, dsmRanges_neg s e hse]

theorem dsmBuildLoop_diverges :
    ∀ fuel start, start < U64 → dsmBuildLoop fuel start (U64 - 1) = none := by
  intro fuel
  induction fuel with
  | zero => intro s _; rfl
  | succ n ih =>
    intro s hs
    have hse : s ≤ U64 - 1 := by simp only [U64] at hs ⊢; omega
    rw [dsmBuildLoop_succ, if_pos hse,
      ih ((s + MAX_SECTOR_PER_RANGE) % U64)
        (Nat.mod_lt _ (by simp only [U64]; omega))]

/-! ### Byte-level facts about the descriptor stores -/

theorem mod_pow_div_256 (s w b : Nat) (h : 8 * b + 8 ≤ w) :
    s % 2 ^ w / 2 ^ (8 * b) % 256 = s / 2 ^ (8 * b) % 256 := by
  have hw : w = 8 * b + (w - 8 * b) := by omega
  rw [hw, pow_add, Nat.mod_mul_right_div_self]
  have h256 : (256 : Nat) = 2 ^ 8 := by norm_num
  rw [h256]
  exact Nat.mod_mod_of_dvd _ (pow_dvd_pow 2 (by omega))

theorem writeEntry_in (m : Nat → Nat) (i s l b : Nat) (hb : b < 8) :
    writeEntry m i s l (8 * i + b) = entryByte { lba := s, len := l } b := by
  unfold writeEntry store16 store64 entryByte
  by_cases h6 : b < 6
  · rw [if_neg (by omega), if_pos (by omega : 8 * i ≤ 8 * i + b ∧ 8 * i + b < 8 * i + 8),
      if_pos h6]
    have harg : 8 * i + b - 8 * i = b := by omega
    rw [harg]
    have hU : U64 = 2 ^ 64 := by norm_num [U64]
    rw [hU, mod_pow_div_256 s 64 b (by omega), ← mod_pow_div_256 s 48 b (by omega)]
  · rw [if_pos (by omega : 8 * i + 6 ≤ 8 * i + b ∧ 8 * i + b < 8 * i + 6 + 2),
      if_neg h6]
    have harg : 8 * i + b - (8 * i + 6) = b - 6 := by omega
    rw [harg]

theorem writeEntry_out (m : Nat → Nat) (i s l a : Nat)
    (ha : a < 8 * i ∨ 8 * i + 8 ≤ a) :
    writeEntry m i s l a = m a := by
  unfold writeEntry store16 store64
  rw [if_neg (by omega), if_neg (by omega)]

theorem dsmBuildMem_neg (m : Nat → Nat) (i start e : Nat) (h : ¬ start ≤ e) :
    dsmBuildMem m i start e = m := by
  rw [dsmBuildMem, dif_neg h]

theorem dsmBuildMem_pos (m : Nat → Nat) (i start e : Nat) (h : start ≤ e) :
    dsmBuildMem m i start e =
      dsmBuildMem
        (writeEntry m i start
          (if e - start + 1 < MAX_SECTOR_PER_RANGE then e - start + 1
           else MAX_SECTOR_PER_RANGE)) (i + 1) (start + MAX_SECTOR_PER_RANGE) e := by
  rw [dsmBuildMem, dif_pos h]

theorem dsmBuildMem_untouched_aux :
    ∀ kk (m : Nat → Nat) i start e a, e + 1 - start ≤ MAX_SECTOR_PER_RANGE * kk →
      a < 8 * i → dsmBuildMem m i start e a = m a := by
  intro kk
  induction kk with
  | zero =>
    intro m i s e a hk ha
    rw [dsmBuildMem_neg m i s e (by simp only [MAX_SECTOR_PER_RANGE] at hk; omega)]
  | succ n ih =>
    intro m i s e a hk ha
    by_cases hse : s ≤ e
    · rw [dsmBuildMem_pos m i s e hse,
        ih _ (i + 1) (s + MAX_SECTOR_PER_RANGE) e a
          (by simp only [MAX_SECTOR_PER_RANGE] at hk ⊢; omega) (by omega),
        writeEntry_out m i s _ a (Or.inl ha)]
    · rw [dsmBuildMem_neg m i s e hse]

theorem dsmBuildMem_untouched (m : Nat → Nat) (i start e a : Nat) (ha : a < 8 * i) :
    dsmBuildMem m i start e a = m a :=
  dsmBuildMem_untouched_aux (e + 1 - start) m i start e a
    (by simp only [MAX_SECTOR_PER_RANGE]; omega) ha

theorem descByte_head (r : RangeEntry) (rs : List RangeEntry) (a : Nat) (ha : a < 8) :
    descByte (r :: rs) a = entryByte r a := by
  unfold descByte
  rw [Nat.div_eq_of_lt ha, Nat.mod_eq_of_lt ha, List.getD_cons_zero]

theorem descByte_tail (r : RangeEntry) (rs : List RangeEntry) (a : Nat) (ha : 8 ≤ a) :
    descByte (r :: rs) a = descByte rs (a - 8) := by
  unfold descByte
  have h1 : a / 8 = (a - 8) / 8 + 1 := by omega
  have h2 : a % 8 = (a - 8) % 8 := by omega
  rw [h1, h2, List.getD_cons_succ]

theorem dsmBuildMem_descByte_aux :
    ∀ kk (m : Nat → Nat) i start e a, e + 1 - start ≤ MAX_SECTOR_PER_RANGE * kk →
      a < 8 * (dsmRanges start e).length →
      dsmBuildMem m i start e (8 * i + a) = descByte (dsmRanges start e) a := by
  intro kk
  induction kk with
  | zero =>
    intro m i s e a hk ha
    rw [dsmRanges_neg s e (by simp only [MAX_SECTOR_PER_RANGE] at hk; omega),
      List.length_nil] at ha
    omega
  | succ n ih =>
    intro m i s e a hk ha
    by_cases hse : s ≤ e
    · have hml : (if e - s + 1 < MAX_SECTOR_PER_RANGE then e - s + 1
          else MAX_SECTOR_PER_RANGE) = min (e - s + 1) MAX_SECTOR_PER_RANGE := by
        simp only [MAX_SECTOR_PER_RANGE]
        split <;> omega
      rw [dsmBuildMem_pos m i s e hse, hml]
      rw [dsmRanges_pos_min s e hse] at ha ⊢
      rw [List.length_cons] at ha
      by_cases ha8 : a < 8
      · rw [dsmBuildMem_untouched _ (i + 1) (s + MAX_SECTOR_PER_RANGE) e (8 * i + a)
          (by omega)]
        rw [writeEntry_in m i s _ a ha8, descByte_head _ _ _ ha8]
      · have key : 8 * i + a = 8 * (i + 1) + (a - 8) := by omega
        rw [key,
          ih _ (i + 1) (s + MAX_SECTOR_PER_RANGE) e (a - 8)
            (by simp only [MAX_SECTOR_PER_RANGE] at hk ⊢; omega) (by omega),
          descByte_tail _ _ _ (by omega)]
    · rw [dsmRanges_neg s e hse, List.length_nil] at ha
      omega

theorem dsmBuildMem_descByte (m : Nat → Nat) (start e a : Nat)
    (ha : a < 8 * (dsmRanges start e).length) :
    dsmBuildMem m 0 start e a = descByte (dsmRanges start e) a := by
  have h := dsmBuildMem_descByte_aux (e + 1 - start) m 0 start e a
    (by simp only [MAX_SECTOR_PER_RANGE]; omega) ha
  have h0 : 8 * 0 + a = a := by omega
  rw [h0] at h
  exact h

/-! ### Facts about the batch dispatch loop -/

theorem chunksFrom_nil (i : Nat) : chunksFrom i [] := trivial

theorem chunksFrom_cons (i : Nat) (c : Nat × Nat) (cs : List (Nat × Nat)) :
    chunksFrom i (c :: cs) ↔ (c.1 = i ∧ chunksFrom (i + c.2) cs) :=
  Iff.rfl

theorem chunkSeq_neg (M T i : Nat) (h : ¬ (i < T ∧ 0 < M)) : chunkSeq M T i = [] := by
  rw [chunkSeq, dif_neg h]

theorem chunkSeq_pos (M T i : Nat) (h : i < T ∧ 0 < M) :
    chunkSeq M T i = (i, min (T - i) M) :: chunkSeq M T (i + M) := by
  rw [chunkSeq, dif_pos h]

theorem chunkSeq_length_aux :
    ∀ k M T i, 0 < M → T - i ≤ k →
      (chunkSeq M T i).length = (T - i + (M - 1)) / M := by
  intro k
  induction k with
  | zero =>
    intro M T i hM hk
    rw [chunkSeq_neg M T i (by omega), List.length_nil]
    exact (Nat.div_eq_of_lt (by omega)).symm
  | succ n ih =>
    intro M T i hM hk
    by_cases hc : i < T
    · rw [chunkSeq_pos M T i ⟨hc, hM⟩, List.length_cons, ih M T (i + M) hM (by omega)]
      by_cases hle : T - i ≤ M
      · rw [Nat.div_eq_of_lt (by omega : T - (i + M) + (M - 1) < M),
          Nat.div_eq_of_lt_le (by omega : 1 * M ≤ T - i + (M - 1))
            (by omega : T - i + (M - 1) < (1 + 1) * M)]
      · have harr : T - i + (M - 1) = T - (i + M) + (M - 1) + M := by omega
        rw [harr, Nat.add_div_right _ hM]
    · rw [chunkSeq_neg M T i (by omega), List.length_nil]
      exact (Nat.div_eq_of_lt (by omega)).symm

theorem chunkSeq_sum_aux :
    ∀ k M T i, 0 < M → T - i ≤ k →
      ((chunkSeq M T i).map Prod.snd).sum = T - i := by
  intro k
  induction k with
  | zero =>
    intro M T i hM hk
    rw [chunkSeq_neg M T i (by omega), List.map_nil, List.sum_nil]
    omega
  | succ n ih =>
    intro M T i hM hk
    by_cases hc : i < T
    · rw [chunkSeq_pos M T i ⟨hc, hM⟩, List.map_cons, List.sum_cons,
        ih M T (i + M) hM (by omega)]
      show min (T - i) M + (T - (i + M)) = T - i
      omega
    · rw [chunkSeq_neg M T i (by omega), List.map_nil, List.sum_nil]
      omega

theorem chunkSeq_counts_aux :
    ∀ k M T i, 0 < M → T - i ≤ k →
      ∀ c ∈ chunkSeq M T i, 1 ≤ c.2 ∧ c.2 ≤ M := by
  intro k
  induction k with
  | zero =>
    intro M T i hM hk c hcm
    rw [chunkSeq_neg M T i (by omega)] at hcm
    exact absurd hcm (List.not_mem_nil c)
  | succ n ih =>
    intro M T i hM hk c hcm
    by_cases hc : i < T
    · rw [chunkSeq_pos M T i ⟨hc, hM⟩] at hcm
      rcases List.mem_cons.mp hcm with hhead | htail
      · subst hhead
        refine ⟨?_, ?_⟩
        · show 1 ≤ min (T - i) M
          omega
        · show min (T - i) M ≤ M
          omega
      · exact ih M T (i + M) hM (by omega) c htail
    · rw [chunkSeq_neg M T i (by omega)] at hcm
      exact absurd hcm (List.not_mem_nil c)

theorem chunkSeq_chunksFrom_aux :
    ∀ k M T i, 0 < M → T - i ≤ k → chunksFrom i (chunkSeq M T i) := by
  intro k
  induction k with
  | zero =>
    intro M T i hM hk
    rw [chunkSeq_neg M T i (by omega)]
    exact chunksFrom_nil i
  | succ n ih =>
    intro M T i hM hk
    by_cases hc : i < T
    · rw [chunkSeq_pos M T i ⟨hc, hM⟩, chunksFrom_cons]
      refine ⟨rfl, ?_⟩
      show chunksFrom (i + min (T - i) M) (chunkSeq M T (i + M))
      by_cases hle : M ≤ T - i
      · have hm : min (T - i) M = M := Nat.min_eq_right hle
        rw [hm]
        exact ih M T (i + M) hM (by omega)
      · rw [chunkSeq_neg M T (i + M) (by omega)]
        exact chunksFrom_nil _
    · rw [chunkSeq_neg M T i (by omega)]
      exact chunksFrom_nil i

theorem dispatchLoop_zero (pt : Nat → Nat → Nat) (M T i ret : Nat) :
    dispatchLoop pt M T 0 i ret = none := rfl

theorem dispatchLoop_succ (pt : Nat → Nat → Nat) (M T fuel i ret : Nat) :
    dispatchLoop pt M T (fuel + 1) i ret =
      if i < T then
        if EFI_ERROR (pt i (min (T - i) M)) = true then
          some ([(i, min (T - i) M)], pt i (min (T - i) M))
        else
          match dispatchLoop pt M T fuel ((i + M) % U64) (pt i (min (T - i) M)) with
          | none => none
          | some (rest, fin) => some ((i, min (T - i) M) :: rest, fin)
      else some ([], ret) := rfl

theorem dispatchLoop_success_aux :
    ∀ k (pt : Nat → Nat → Nat) M T i ret, 0 < M → T + M < U64 → T - i ≤ k →
      (∀ o c, EFI_ERROR (pt o c) = false) →
      ∃ fin, dispatchLoop pt M T (k + 1) i ret = some (chunkSeq M T i, fin) := by
  intro k
  induction k with
  | zero =>
    intro pt M T i ret hM hTM hk hok
    refine ⟨ret, ?_⟩
    rw [dispatchLoop_succ, if_neg (by omega : ¬ i < T), chunkSeq_neg M T i (by omega)]
  | succ n ih =>
    intro pt M T i ret hM hTM hk hok
    by_cases hc : i < T
    · have hmod : (i + M) % U64 = i + M := by
        apply Nat.mod_eq_of_lt
        simp only [U64] at hTM ⊢
        omega
      obtain ⟨fin, hfin⟩ := ih pt M T (i + M) (pt i (min (T - i) M)) hM hTM (by omega) hok
      refine ⟨fin, ?_⟩
      rw [dispatchLoop_succ, if_pos hc]
      simp only [hok, Bool.false_eq_true, if_false]
      rw [hmod, hfin, chunkSeq_pos M T i ⟨hc, hM⟩]
    · refine ⟨ret, ?_⟩
      rw [dispatchLoop_succ, if_neg hc, chunkSeq_neg M T i (by omega)]

theorem dispatchLoop_fail_aux :
    ∀ c (pt : Nat → Nat → Nat) M T i ret, 0 < M → T + M < U64 → 1 ≤ c →
      i + (c - 1) * M < T →
      (∀ t, t < c - 1 → EFI_ERROR (pt (i + t * M) (min (T - (i + t * M)) M)) = false) →
      EFI_ERROR (pt (i + (c - 1) * M) (min (T - (i + (c - 1) * M)) M)) = true →
      dispatchLoop pt M T (c + 1) i ret =
        some ((List.range c).map (fun t => (i + t * M, min (T - (i + t * M)) M)),
              pt (i + (c - 1) * M) (min (T - (i + (c - 1) * M)) M)) := by
  intro c
  induction c with
  | zero =>
    intro pt M T i ret hM hTM hc hin hsucc hfail
    exact absurd hc (by omega)
  | succ n ih =>
    intro pt M T i ret hM hTM hc hin hsucc hfail
    have hz : n + 1 - 1 = n := by omega
    rw [hz] at hin hsucc hfail ⊢
    by_cases hn : n = 0
    · subst hn
      have h0 : i + 0 * M = i := by omega
      rw [h0] at hin hfail ⊢
      rw [dispatchLoop_succ, if_pos hin, if_pos hfail]
      have hr : (List.range (0 + 1)).map
          (fun t => (i + t * M, min (T - (i + t * M)) M)) = [(i, min (T - i) M)] := by
        have h01 : List.range (0 + 1) = [0] := rfl
        rw [h01, List.map_cons, List.map_nil]
        show [(i + 0 * M, min (T - (i + 0 * M)) M)] = [(i, min (T - i) M)]
        rw [h0]
      rw [hr]
    · have hi : i < T := by
        have hz2 : 0 ≤ n * M := Nat.zero_le _
        omega
      have hsucc0 : EFI_ERROR (pt i (min (T - i) M)) = false := by
        have h := hsucc 0 (by omega)
        rw [Nat.zero_mul, Nat.add_zero] at h
        exact h
      have hmod : (i + M) % U64 = i + M := by
        apply Nat.mod_eq_of_lt
        simp only [U64] at hTM ⊢
        omega
      have hstep : n * M = (n - 1) * M + M := by
        have hsm : (n - 1 + 1) * M = (n - 1) * M + M := Nat.succ_mul (n - 1) M
        have hn1 : n - 1 + 1 = n := by omega
        rw [hn1] at hsm
        omega
      have hin2 : i + M + (n - 1) * M < T := by omega
      have hsucc2 : ∀ t, t < n - 1 →
          EFI_ERROR (pt (i + M + t * M) (min (T - (i + M + t * M)) M)) = false := by
        intro t ht
        have heq : i + M + t * M = i + (t + 1) * M := by
          have hsm : (t + 1) * M = t * M + M := Nat.succ_mul t M
          omega
        rw [heq]
        exact hsucc (t + 1) (by omega)
      have hstat : i + M + (n - 1) * M = i + n * M := by omega
      have hfail2 : EFI_ERROR (pt (i + M + (n - 1) * M)
          (min (T - (i + M + (n - 1) * M)) M)) = true := by
        rw [hstat]
        exact hfail
      have hrec := ih pt M T (i + M) (pt i (min (T - i) M)) hM hTM (by omega)
        hin2 hsucc2 hfail2
      rw [dispatchLoop_succ, if_pos hi]
      simp only [hsucc0, Bool.false_eq_true, if_false]
      rw [hmod, hrec]
      have hlist : (i, min (T - i) M) :: (List.range n).map
            (fun t => (i + M + t * M, min (T - (i + M + t * M)) M)) =
          (List.range (n + 1)).map (fun t => (i + t * M, min (T - (i + t * M)) M)) := by
        rw [List.range_succ_eq_map, List.map_cons, List.map_map]
        congr 1
        · show (i, min (T - i) M) = (i + 0 * M, min (T - (i + 0 * M)) M)
          rw [Nat.zero_mul, Nat.add_zero]
        · apply List.map_congr_left
          intro t _ht
          show (i + M + t * M, min (T - (i + M + t * M)) M) =
            (i + (t + 1) * M, min (T - (i + (t + 1) * M)) M)
          have heq : i + M + t * M = i + (t + 1) * M := by
            have hsm : (t + 1) * M = t * M + M := Nat.succ_mul t M
            omega
          rw [heq]
      rw [← hlist, hstat]

/-! ### Buffer sizing arithmetic -/

theorem nrSectors_eq (start e : Nat) (h1 : start ≤ e) (h2 : e + 1 < U64) :
    nrSectors start e = e - start + 1 := by
  unfold nrSectors
  have ha : e + U64 - start = e - start + U64 := by omega
  rw [ha, Nat.add_mod_right, Nat.mod_eq_of_lt (by omega : e - start < U64),
    Nat.mod_eq_of_lt (by omega : e - start + 1 < U64)]

theorem nrRanges_eq (start e : Nat) (h1 : start ≤ e) (h2 : e + 1 < U64) :
    nrRanges start e =
      (e - start + 1 + (MAX_SECTOR_PER_RANGE - 1)) / MAX_SECTOR_PER_RANGE := by
  unfold nrRanges
  rw [nrSectors_eq start e h1 h2]
  simp only [MAX_SECTOR_PER_RANGE]
  split <;> omega

theorem nrBlocks_spec (start e : Nat) :
    8 * nrRanges start e ≤ nrBlocks start e * BLOCK_SIZE ∧
    ∀ b : Nat, 8 * nrRanges start e ≤ b * BLOCK_SIZE → nrBlocks start e ≤ b := by
  unfold nrBlocks
  simp only [BLOCK_SIZE]
  refine ⟨?_, ?_⟩
  · split <;> omega
  · intro b hb
    split <;> omega

/-! ### Wire-format helpers -/

theorem entryByte_addr (r : RangeEntry) (b : Nat) (hb : b < 6) :
    entryByte r b = r.lba % 2 ^ 48 / 2 ^ (8 * b) % 256 := by
  unfold entryByte
  rw [if_pos hb]

theorem entryByte_len_lo (r : RangeEntry) : entryByte r 6 = r.len % 256 := by
  unfold entryByte
  rw [if_neg (by omega)]
  have h1 : (2 : Nat) ^ (8 * (6 - 6)) = 1 := by norm_num
  rw [h1, Nat.div_one, Nat.mod_mod_of_dvd _ (by norm_num : (256 : Nat) ∣ 65536)]

theorem entryByte_len_hi (r : RangeEntry) : entryByte r 7 = r.len / 256 % 256 := by
  unfold entryByte
  rw [if_neg (by omega)]
  have h1 : (2 : Nat) ^ (8 * (7 - 6)) = 2 ^ (8 * 1) := by norm_num
  have h2 : (65536 : Nat) = 2 ^ 16 := by norm_num
  rw [h1, h2, mod_pow_div_256 r.len 16 1 (by omega),
    (by norm_num : (2 : Nat) ^ (8 * 1) = 256)]

theorem descByte_at (rs : List RangeEntry) (j b : Nat) (hb : b < 8) :
    descByte rs (8 * j + b) = entryByte (rs.getD j { lba := 0, len := 0 }) b := by
  unfold descByte
  have h1 : (8 * j + b) / 8 = j := by omega
  have h2 : (8 * j + b) % 8 = b := by omega
  rw [h1, h2]

/-! ### Claim theorems -/

/-- C1 counterexample: the claim quantifies over every u64 span with
`end ≥ start`, but at `start = 0`, `end = 2^64 - 1` the C building loop never
terminates (`start <= end` holds for every u64 value of `start`, the stride
`start += 0xFFFF` wrapping past `2^64`), so no descriptor sequence with the
claimed properties is ever built — `dsmBuildLoop` returns `none` at every
fuel. -/
theorem c1_counterexample : (0 : Nat) ≤ U64 - 1 ∧ ¬ C1Prop 0 (U64 - 1) := by
  refine ⟨Nat.zero_le _, ?_⟩
  rintro ⟨rs, ⟨fuel, hb⟩, -, -, -⟩
  rw [dsmBuildLoop_diverges fuel 0 (by simp only [U64]; omega)] at hb
  exact Option.noConfusion hb

/-- C1 (amended): for every span `[start, end]` with `end ≥ start` and
`end + 65535 < 2^64` (so the 64-bit stride cannot wrap), the builder
terminates and the built descriptor sequence has run lengths summing to
`end - start + 1`, is contiguous from `start` — start LBAs strictly
ascending, no gaps, no overlaps, each descriptor starting at the previous
start plus its run length — and every run length lies in `[1, 65535]`. -/
theorem c1_rangelist_invariants (start e : Nat) (h1 : start ≤ e)
    (h2 : e + MAX_SECTOR_PER_RANGE < U64) : C1Prop start e :=
  ⟨dsmRanges start e,
    ⟨e + 1 - start + 1, dsmBuildLoop_complete (e + 1 - start) start e h2
      (by simp only [MAX_SECTOR_PER_RANGE]; omega)⟩,
    dsmRanges_sumLens start e h1, dsmRanges_contig start e, dsmRanges_bounds start e⟩

/-- Witness for C1's amended theorem at the concrete span `[3, 200002]`. -/
theorem c1_rangelist_invariants_witness :
    3 ≤ 200002 ∧ 200002 + MAX_SECTOR_PER_RANGE < U64 ∧ C1Prop 3 200002 :=
  ⟨by decide, by decide, c1_rangelist_invariants 3 200002 (by decide) (by decide)⟩

/-- C2 counterexample: at `start = 0`, `end = 2^64 - 1` (a u64 span with
`end ≥ start`) the building loop never terminates, so no descriptor count or
buffer-sizing property of the emitted sequence can hold as claimed. -/
theorem c2_counterexample : (0 : Nat) ≤ U64 - 1 ∧ ¬ C2Prop 0 (U64 - 1) := by
  refine ⟨Nat.zero_le _, ?_⟩
  rintro ⟨rs, ⟨fuel, hb⟩, -, -, -, -, -, -⟩
  rw [dsmBuildLoop_diverges fuel 0 (by simp only [U64]; omega)] at hb
  exact Option.noConfusion hb

/-- C2 (amended): for every span `[start, end]` with `end ≥ start` and
`end + 65535 < 2^64`, the builder emits exactly
`ceil((end - start + 1) / 65535)` descriptors, the backing buffer
(`nr_blocks` blocks of 512 bytes) is the smallest multiple of the storage
block size holding all 8-byte descriptors, a span of length 1 yields exactly
`[{start, 1}]`, of length 65535 exactly `[{start, 65535}]`, and of length
65536 exactly `[{start, 65535}, {start + 65535, 1}]`. -/
theorem c2_descriptor_count_buffer (start e : Nat) (h1 : start ≤ e)
    (h2 : e + MAX_SECTOR_PER_RANGE < U64) : C2Prop start e := by
  have hlen : (dsmRanges start e).length = nrRanges start e := by
    rw [dsmRanges_length start e,
      nrRanges_eq start e h1 (by simp only [MAX_SECTOR_PER_RANGE, U64] at h2 ⊢; omega)]
    have he : e + 1 - start = e - start + 1 := by omega
    rw [he]
  refine ⟨dsmRanges start e,
    ⟨e + 1 - start + 1, dsmBuildLoop_complete (e + 1 - start) start e h2
      (by simp only [MAX_SECTOR_PER_RANGE]; omega)⟩, ?_, ?_, ?_, ?_, ?_, ?_⟩
  · rw [dsmRanges_length start e]
    have he : e + 1 - start = e - start + 1 := by omega
    rw [he]
  · rw [hlen]
    exact (nrBlocks_spec start e).1
  · intro b hb
    rw [hlen] at hb
    exact (nrBlocks_spec start e).2 b hb
  · intro hes
    rw [hes]
    rw [dsmRanges_single start start (le_refl _)
      (by simp only [MAX_SECTOR_PER_RANGE]; omega)]
    have h11 : start - start + 1 = 1 := by omega
    rw [h11]
  · intro hL
    have he : e = start + (MAX_SECTOR_PER_RANGE - 1) := by
      simp only [MAX_SECTOR_PER_RANGE] at hL ⊢
      omega
    subst he
    rw [dsmRanges_single start (start + (MAX_SECTOR_PER_RANGE - 1))
      (by omega) (by simp only [MAX_SECTOR_PER_RANGE]; omega)]
    have hl2 : start + (MAX_SECTOR_PER_RANGE - 1) - start + 1 = MAX_SECTOR_PER_RANGE := by
      simp only [MAX_SECTOR_PER_RANGE]
      omega
    rw [hl2]
  · intro hL
    have he : e = start + MAX_SECTOR_PER_RANGE := by
      simp only [MAX_SECTOR_PER_RANGE] at hL ⊢
      omega
    subst he
    exact dsmRanges_two start

/-- Witness for C2's amended theorem at the concrete span `[5, 70000]`. -/
theorem c2_descriptor_count_buffer_witness :
    5 ≤ 70000 ∧ 70000 + MAX_SECTOR_PER_RANGE < U64 ∧ C2Prop 5 70000 :=
  ⟨by decide, by decide, c2_descriptor_count_buffer 5 70000 (by decide) (by decide)⟩

/-- C3: with an always-successful transport, the dispatch loop issues exactly
`ceil(T / M) = (T + M - 1) / M` chunk commands, each of at least 1 and at
most `M` blocks, consecutive and non-overlapping in buffer order starting at
block 0, with block counts summing to `T`.  The hypothesis `T + M < 2^64`
holds for every block count the pipeline can compute (at most about `2^48`)
and makes the plain-`Nat` chunk arithmetic coincide with the loop's u64
arithmetic. -/
theorem c3_batch_chunking (pt : Nat → Nat → Nat) (M T : Nat)
    (hM : 1 ≤ M) (hT : 1 ≤ T) (hTM : T + M < U64)
    (hok : ∀ o c, EFI_ERROR (pt o c) = false) :
    ∃ fin, (∃ fuel, dispatchLoop pt M T fuel 0 EFI_SUCCESS = some (chunkSeq M T 0, fin)) ∧
      (chunkSeq M T 0).length = (T + M - 1) / M ∧
      (∀ c ∈ chunkSeq M T 0, 1 ≤ c.2 ∧ c.2 ≤ M) ∧
      chunksFrom 0 (chunkSeq M T 0) ∧
      ((chunkSeq M T 0).map Prod.snd).sum = T := by
  obtain ⟨fin, hfin⟩ :=
    dispatchLoop_success_aux T pt M T 0 EFI_SUCCESS (by omega) hTM (by omega) hok
  refine ⟨fin, ⟨T + 1, hfin⟩, ?_,
    chunkSeq_counts_aux T M T 0 (by omega) (by omega),
    chunkSeq_chunksFrom_aux T M T 0 (by omega) (by omega), ?_⟩
  · rw [chunkSeq_length_aux T M T 0 (by omega) (by omega)]
    have h0 : T - 0 + (M - 1) = T + M - 1 := by omega
    rw [h0]
  · rw [chunkSeq_sum_aux T M T 0 (by omega) (by omega)]
    omega

/-- Witness for C3 with capability `M = 2` and `T = 5` buffer blocks. -/
theorem c3_batch_chunking_witness :
    ((1 : Nat) ≤ 2 ∧ (1 : Nat) ≤ 5) ∧
    (∃ fin, (∃ fuel, dispatchLoop (fun _ _ => EFI_SUCCESS) 2 5 fuel 0 EFI_SUCCESS =
        some (chunkSeq 2 5 0, fin)) ∧
      (chunkSeq 2 5 0).length = (5 + 2 - 1) / 2 ∧
      (∀ c ∈ chunkSeq 2 5 0, 1 ≤ c.2 ∧ c.2 ≤ 2) ∧
      chunksFrom 0 (chunkSeq 2 5 0) ∧
      ((chunkSeq 2 5 0).map Prod.snd).sum = 5) :=
  ⟨⟨by decide, by decide⟩,
   c3_batch_chunking (fun _ _ => EFI_SUCCESS) 2 5 (by decide) (by decide) (by decide)
     (fun _ _ => (by decide : EFI_ERROR EFI_SUCCESS = false))⟩

/-- C4: whenever the device resolves up to the capability probe and the probe
is negative — the identify command failed, the TRIM capability bit is clear,
or the maximum block count is zero, each condition alone — the erase facade
returns `EFI_UNSUPPORTED` and issues no DSM command; the probe outcome is
never escalated to a hard erase failure. -/
theorem c4_negative_probe_unsupported (env : SataEnv) (start e fuel : Nat)
    (hdp : env.devicePathOk = true) (hloc : EFI_ERROR env.locateStatus = false)
    (hsp : env.sataDpFound = true) (hhp : EFI_ERROR env.handleProtocolStatus = false)
    (hneg : EFI_ERROR env.identifyStatus = true ∨
            env.identifyData.is_data_set_cmd_supported % 2 = 0 ∨
            env.identifyData.max_no_of_512byte_blocks_per_data_set_cmd = 0) :
    sata_erase_blocks env start e fuel =
      some { status := EFI_UNSUPPORTED, issued := [] } := by
  have hsup : is_dsm_trim_supported env = false := by
    unfold is_dsm_trim_supported
    by_cases hid : EFI_ERROR env.identifyStatus = true
    · rw [if_pos hid]
    · rw [if_neg hid]
      rcases hneg with h | h | h
      · exact absurd h hid
      · rw [if_pos (Or.inl h)]
      · rw [if_pos (Or.inr h)]
  unfold sata_erase_blocks
  rw [if_neg (by rw [hdp]; decide), if_neg (by rw [hloc]; decide),
    if_neg (by rw [hsp]; decide), if_neg (by rw [hhp]; decide),
    if_neg (by rw [hsup]; decide)]

/-- Witness for C4 on `negProbeEnv` (TRIM capability bit clear). -/
theorem c4_negative_probe_unsupported_witness :
    negProbeEnv.devicePathOk = true ∧
    negProbeEnv.identifyData.is_data_set_cmd_supported % 2 = 0 ∧
    sata_erase_blocks negProbeEnv 0 99 5 =
      some { status := EFI_UNSUPPORTED, issued := [] } :=
  ⟨by decide, by decide,
   c4_negative_probe_unsupported negProbeEnv 0 99 5 (by decide) (by decide) (by decide)
     (by decide) (Or.inr (Or.inl (by decide)))⟩

/-- C5: if the transport fails on chunk `k` of `n = ceil(T / M)` while every
earlier chunk succeeds, the dispatch loop issues exactly chunks `1..k`, each
once and in buffer order, issues nothing beyond chunk `k`, and returns the
failing chunk's transport status — no retry, no rollback.  As in C3,
`T + M < 2^64` holds for every realizable block count. -/
theorem c5_midbatch_failure (pt : Nat → Nat → Nat) (M T k : Nat)
    (hM : 0 < M) (hTM : T + M < U64) (hk1 : 1 ≤ k) (hkn : k ≤ (T + M - 1) / M)
    (hsucc : ∀ j, j < k - 1 → EFI_ERROR (pt (j * M) (min (T - j * M) M)) = false)
    (hfail : EFI_ERROR (pt ((k - 1) * M) (min (T - (k - 1) * M) M)) = true) :
    ∃ fuel, dispatchLoop pt M T fuel 0 EFI_SUCCESS =
      some ((List.range k).map (fun j => (j * M, min (T - j * M) M)),
            pt ((k - 1) * M) (min (T - (k - 1) * M) M)) := by
  have hmul : k * M ≤ (T + M - 1) / M * M := Nat.mul_le_mul_right M hkn
  have hdiv : (T + M - 1) / M * M ≤ T + M - 1 := Nat.div_mul_le_self _ _
  have hsub : (k - 1) * M = k * M - M := by
    have hsm : (k - 1 + 1) * M = (k - 1) * M + M := Nat.succ_mul (k - 1) M
    have hk : k - 1 + 1 = k := by omega
    rw [hk] at hsm
    omega
  have hkM : M ≤ k * M := Nat.le_mul_of_pos_left M hk1
  have hin : 0 + (k - 1) * M < T := by omega
  have hsucc0 : ∀ t, t < k - 1 →
      EFI_ERROR (pt (0 + t * M) (min (T - (0 + t * M)) M)) = false := by
    intro t ht
    have h0 : 0 + t * M = t * M := by omega
    rw [h0]
    exact hsucc t ht
  have hfail0 : EFI_ERROR (pt (0 + (k - 1) * M) (min (T - (0 + (k - 1) * M)) M)) = true := by
    have h0 : 0 + (k - 1) * M = (k - 1) * M := by omega
    rw [h0]
    exact hfail
  have h := dispatchLoop_fail_aux k pt M T 0 EFI_SUCCESS hM hTM hk1 hin hsucc0 hfail0
  refine ⟨k + 1, ?_⟩
  rw [h]
  have hl : (List.range k).map (fun t => (0 + t * M, min (T - (0 + t * M)) M)) =
      (List.range k).map (fun j => (j * M, min (T - j * M) M)) := by
    apply List.map_congr_left
    intro t _ht
    have h0 : 0 + t * M = t * M := by omega
    rw [h0]
  rw [hl]
  have h0 : 0 + (k - 1) * M = (k - 1) * M := by omega
  rw [h0]

/-- Witness for C5: `M = 1`, `T = 3`, transport failing from block offset 1
on, so chunk 2 of 3 fails. -/
theorem c5_midbatch_failure_witness :
    (1 : Nat) ≤ 2 ∧
    (∃ fuel, dispatchLoop (fun o _ => if o = 0 then EFI_SUCCESS else EFI_DEVICE_ERROR)
        1 3 fuel 0 EFI_SUCCESS =
      some ((List.range 2).map (fun j => (j * 1, min (3 - j * 1) 1)),
            (fun o _ => if o = 0 then EFI_SUCCESS else EFI_DEVICE_ERROR)
              ((2 - 1) * 1) (min (3 - (2 - 1) * 1) 1))) :=
  ⟨by decide,
   c5_midbatch_failure (fun o _ => if o = 0 then EFI_SUCCESS else EFI_DEVICE_ERROR) 1 3 2
     (by decide) (by decide) (by decide) (by decide)
     (fun j hj => by
       have hj0 : j = 0 := by omega
       subst hj0
       decide)
     (by decide)⟩

/-- C6: every returning `ata_dsm_trim` execution with a successful allocation
frees the range-list buffer exactly once — on full success and on every
chunk-failure path alike — while a failed allocation returns the allocation
error with no DSM command issued and no free performed. -/
theorem c6_buffer_release (env : SataEnv) (start e M fuel : Nat) (res : TrimOutcome)
    (h : ata_dsm_trim env start e M fuel = some res) :
    (EFI_ERROR env.allocStatus = true →
      res.frees = 0 ∧ res.status = env.allocStatus ∧ res.issued = []) ∧
    (EFI_ERROR env.allocStatus = false → res.frees = 1) := by
  unfold ata_dsm_trim at h
  by_cases ha : EFI_ERROR env.allocStatus = true
  · rw [if_pos ha] at h
    have hres := Option.some.inj h
    refine ⟨fun _ => ?_, fun hfalse => ?_⟩
    · rw [← hres]
      exact ⟨rfl, rfl, rfl⟩
    · rw [ha] at hfalse
      exact absurd hfalse (by decide)
  · rw [if_neg ha] at h
    refine ⟨fun htrue => absurd htrue ha, fun _ => ?_⟩
    cases hb : dsmBuildLoop fuel start e with
    | none =>
      rw [hb] at h
      exact Option.noConfusion h
    | some rs =>
      rw [hb] at h
      cases hd : dispatchLoop env.passThru M (nrBlocks start e) fuel 0 EFI_SUCCESS with
      | none =>
        rw [hd] at h
        exact Option.noConfusion h
      | some pr =>
        obtain ⟨issued, st⟩ := pr
        rw [hd] at h
        have hres := Option.some.inj h
        rw [← hres]

/-- Witness for C6 on `okEnv`, span `[0, 5]`, `M = 1`: one chunk, one free. -/
theorem c6_buffer_release_witness :
    ata_dsm_trim okEnv 0 5 1 10 =
      some { status := EFI_SUCCESS, issued := [(0, 1)], frees := 1 } ∧
    (EFI_ERROR okEnv.allocStatus = false →
      ({ status := EFI_SUCCESS, issued := [(0, 1)], frees := 1 } : TrimOutcome).frees = 1) :=
  ⟨by decide, (c6_buffer_release okEnv 0 5 1 10 _ (by decide)).2⟩

/-- C7: the code does not reject `end < start`.  On the malformed span
`[1, 0]` with a resolving device, a positive probe and a successful
(zero-byte) allocation, `nr_sectors` wraps to 0, nothing is built or
dispatched, and `sata_erase_blocks` returns `EFI_SUCCESS` — not the
`EFI_INVALID_PARAMETER` the claim (and the spec's required input-validation
addition) demands. -/
theorem c7_end_before_start_accepted :
    sata_erase_blocks okEnv 1 0 1 = some { status := EFI_SUCCESS, issued := [] } ∧
    EFI_SUCCESS ≠ EFI_INVALID_PARAMETER :=
  ⟨by decide, by decide⟩

/-- C8: the range-list builder is a pure deterministic function of the span:
running the byte-level building loop over any two prior buffer contents
yields byte-identical descriptor regions, equal to the canonical
serialization `descByte` of the descriptor sequence, and the exact u64 loop
builds that same sequence. -/
theorem c8_builder_deterministic (m1 m2 : Nat → Nat) (start e a : Nat)
    (h2 : e + MAX_SECTOR_PER_RANGE < U64)
    (ha : a < 8 * (dsmRanges start e).length) :
    dsmBuildMem m1 0 start e a = dsmBuildMem m2 0 start e a ∧
    dsmBuildMem m1 0 start e a = descByte (dsmRanges start e) a ∧
    BuildsTo start e (dsmRanges start e) := by
  refine ⟨?_, dsmBuildMem_descByte m1 start e a ha,
    ⟨e + 1 - start + 1, dsmBuildLoop_complete (e + 1 - start) start e h2
      (by simp only [MAX_SECTOR_PER_RANGE]; omega)⟩⟩
  rw [dsmBuildMem_descByte m1 start e a ha, dsmBuildMem_descByte m2 start e a ha]

/-- Witness for C8: span `[5, 5]`, first descriptor byte, two different
initial buffer contents. -/
theorem c8_builder_deterministic_witness :
    0 < 8 * (dsmRanges 5 5).length ∧
    dsmBuildMem (fun _ => 0) 0 5 5 0 = dsmBuildMem (fun _ => 255) 0 5 5 0 :=
  have hlen : (0 : Nat) < 8 * (dsmRanges 5 5).length := by
    rw [dsmRanges_single 5 5 (le_refl 5) (by decide)]
    decide
  ⟨hlen, (c8_builder_deterministic (fun _ => 0) (fun _ => 255) 5 5 0 (by decide) hlen).1⟩

/-- C9: `sata_check_logical_unit` succeeds exactly on the primary user-data
logical unit, returns `EFI_UNSUPPORTED` on every other unit, and does not
depend on its (unused) device-path argument. -/
theorem c9_check_logical_unit (p1 p2 : Nat) (u : logical_unit_t) :
    (sata_check_logical_unit p1 u = EFI_SUCCESS ↔ u = LOGICAL_UNIT_USER) ∧
    (u ≠ LOGICAL_UNIT_USER → sata_check_logical_unit p1 u = EFI_UNSUPPORTED) ∧
    sata_check_logical_unit p1 u = sata_check_logical_unit p2 u := by
  cases u with
  | user => exact ⟨⟨fun _ => rfl, fun _ => rfl⟩, fun hne => absurd rfl hne, rfl⟩
  | factory =>
    refine ⟨⟨fun hcontra => ?_, fun hcontra => ?_⟩, fun _ => rfl, rfl⟩
    · have hx : EFI_UNSUPPORTED = EFI_SUCCESS := hcontra
      exact absurd hx (by decide)
    · exact absurd hcontra (by decide)

/-- Witness for C9 at the auxiliary (factory) logical unit and two distinct
device paths. -/
theorem c9_check_logical_unit_witness :
    logical_unit_t.factory ≠ LOGICAL_UNIT_USER ∧
    sata_check_logical_unit 0 logical_unit_t.factory = EFI_UNSUPPORTED ∧
    sata_check_logical_unit 0 logical_unit_t.factory =
      sata_check_logical_unit 7 logical_unit_t.factory :=
  ⟨by decide, (c9_check_logical_unit 0 7 logical_unit_t.factory).2.1 (by decide),
   (c9_check_logical_unit 0 7 logical_unit_t.factory).2.2⟩

/-- C10: the final 8-byte wire record of every emitted descriptor holds
exactly the low 48 bits of the descriptor's start LBA in bytes 0-5 (little
endian, `start mod 2^48` — a start of `2^48` or more is silently truncated,
never rejected) and the 16-bit run length in bytes 6-7; the interim full
64-bit store of the start never leaks into the length field because the
length is stored afterwards. -/
theorem c10_wire_format (m : Nat → Nat) (start e j : Nat)
    (hj : j < (dsmRanges start e).length) :
    (∀ b, b < 6 → dsmBuildMem m 0 start e (8 * j + b) =
      ((dsmRanges start e).getD j { lba := 0, len := 0 }).lba % 2 ^ 48
        / 2 ^ (8 * b) % 256) ∧
    dsmBuildMem m 0 start e (8 * j + 6) =
      ((dsmRanges start e).getD j { lba := 0, len := 0 }).len % 256 ∧
    dsmBuildMem m 0 start e (8 * j + 7) =
      ((dsmRanges start e).getD j { lba := 0, len := 0 }).len / 256 % 256 := by
  refine ⟨fun b hb => ?_, ?_, ?_⟩
  · rw [dsmBuildMem_descByte m start e (8 * j + b) (by omega),
      descByte_at _ _ _ (by omega), entryByte_addr _ _ hb]
  · rw [dsmBuildMem_descByte m start e (8 * j + 6) (by omega),
      descByte_at _ _ _ (by omega), entryByte_len_lo]
  · rw [dsmBuildMem_descByte m start e (8 * j + 7) (by omega),
      descByte_at _ _ _ (by omega), entryByte_len_hi]

/-- Witness for C10 at the one-block span starting at `2^48 + 7` (a start
LBA above the 48-bit address space). -/
theorem c10_wire_format_witness :
    0 < (dsmRanges 281474976710663 281474976710663).length ∧
    dsmBuildMem (fun _ => 0) 0 281474976710663 281474976710663 (8 * 0 + 6) =
      ((dsmRanges 281474976710663 281474976710663).getD 0
        { lba := 0, len := 0 }).len % 256 :=
  have hlen : 0 < (dsmRanges 281474976710663 281474976710663).length := by
    rw [dsmRanges_single 281474976710663 281474976710663 (le_refl _) (by decide)]
    decide
  ⟨hlen,
   (c10_wire_format (fun _ => 0) 281474976710663 281474976710663 0 hlen).2.1⟩

end SataSpec
